import Mathlib

/-!
Shallow embedding of the trove ARC memory-management system
(src/trove.c, src/trove.h): reference-counted object headers, the single
global current autorelease pool, and the TroveString sample type.

The machine state touched by trove.c is made explicit: a heap of live
objects keyed by address, the single current-pool slot, a log of
destructor invocations (the observable destructor side effect), and the
stderr diagnostics. `arc_release` models the destructor call
(TroveString_dealloc-style: free the object's resources and its backing
storage) as removing the object from the heap and appending its address
to the destroy log.
-/

namespace Trove

/-- A C object pointer: `none` is NULL, `some a` a heap address. -/
abbrev Ptr := Option Nat

/-- The ARCObject header of trove.h (`ref_count`, `dealloc`) together with
the payload of the TroveString sample type (`str`). `hasDealloc` records
whether the dealloc function pointer is non-null. -/
@[ext]
structure ARCObject where
  ref_count : Int
  hasDealloc : Bool
  str : String
  deriving DecidableEq

/-- The AutoreleasePool struct of trove.h: the ordered list of registered
object pointers (`count` is `objects.length`) and the `capacity`
bookkeeping of the backing array. -/
structure AutoreleasePool where
  objects : List Ptr
  capacity : Nat
  deriving DecidableEq

/-- The global machine state of trove.c: the heap of live objects (an
association list of address and object), the `current_autorelease_pool`
slot, the log of destructor invocations in order, the stderr
diagnostics, and the next fresh address malloc returns. -/
structure TroveState where
  heap : List (Nat × ARCObject)
  current_autorelease_pool : Option AutoreleasePool
  destroyLog : List Nat
  diagnostics : List String
  nextAddr : Nat
  deriving DecidableEq

/-- Reads the object stored at address `a` (first matching entry). -/
def heapGet (h : List (Nat × ARCObject)) (a : Nat) : Option ARCObject :=
  match h with
  | [] => none
  | (b, o) :: t => if a = b then some o else heapGet t a

/-- Overwrites the object stored at address `a` (first matching entry);
identity when `a` is not present. -/
def heapSet (h : List (Nat × ARCObject)) (a : Nat) (o : ARCObject) :
    List (Nat × ARCObject) :=
  match h with
  | [] => []
  | (b, p) :: t => if a = b then (b, o) :: t else (b, p) :: heapSet t a o

/-- Frees the object stored at address `a` (first matching entry). -/
def heapRemove (h : List (Nat × ARCObject)) (a : Nat) :
    List (Nat × ARCObject) :=
  match h with
  | [] => []
  | (b, p) :: t => if a = b then t else (b, p) :: heapRemove t a

/-- trove.c `arc_retain`: if `obj` is non-NULL, `obj->ref_count++`. -/
def arc_retain (s : TroveState) (obj : Ptr) : TroveState :=
  match obj with
  | none => s
  | some a =>
    match heapGet s.heap a with
    | none => s
    | some o =>
      { s with heap := heapSet s.heap a { o with ref_count := o.ref_count + 1 } }

/-- trove.c `arc_release`: if `obj` is non-NULL, `obj->ref_count--`; if the
resulting count is ≤ 0 and the dealloc pointer is set, the destructor
runs (observable: the address is appended to the destroy log) and the
object's storage is freed (removed from the heap). -/
def arc_release (s : TroveState) (obj : Ptr) : TroveState :=
  match obj with
  | none => s
  | some a =>
    match heapGet s.heap a with
    | none => s
    | some o =>
      if o.ref_count - 1 ≤ 0 then
        if o.hasDealloc then
          { s with heap := heapRemove s.heap a, destroyLog := s.destroyLog ++ [a] }
        else
          { s with heap := heapSet s.heap a { o with ref_count := o.ref_count - 1 } }
      else
        { s with heap := heapSet s.heap a { o with ref_count := o.ref_count - 1 } }

/-- trove.c `autorelease_pool_push`: allocate a fresh pool with count 0 and
capacity 16 and make it the current pool (the successful-malloc path; an
allocation failure aborts the process and is not modelled). -/
def autorelease_pool_push (s : TroveState) : TroveState :=
  { s with current_autorelease_pool := some { objects := [], capacity := 16 } }

/-- trove.c `autorelease_add`: with no current pool, print the diagnostic
and return; otherwise double the capacity when the array is full, then
append `obj` to the pool's object list. -/
def autorelease_add (s : TroveState) (obj : Ptr) : TroveState :=
  match s.current_autorelease_pool with
  | none =>
    { s with diagnostics := s.diagnostics ++ ["No autorelease pool in place!"] }
  | some pool =>
    let pool' :=
      if pool.objects.length ≥ pool.capacity then
        { pool with capacity := pool.capacity * 2 }
      else pool
    let pool'' := { pool' with objects := pool'.objects ++ [obj] }
    { s with current_autorelease_pool := some pool'' }

/-- trove.c `arc_autorelease`: `autorelease_add(obj); return obj;`. -/
def arc_autorelease (s : TroveState) (obj : Ptr) : TroveState × Ptr :=
  (autorelease_add s obj, obj)

/-- trove.c `autorelease_pool_pop`: with no current pool, return;
otherwise `arc_release` every registered object in registration order,
free the pool's backing storage and the pool, and set the current pool
to NULL. -/
def autorelease_pool_pop (s : TroveState) : TroveState :=
  match s.current_autorelease_pool with
  | none => s
  | some pool =>
    { pool.objects.foldl arc_release s with current_autorelease_pool := none }

/-- trove.c `TroveString_create`: allocate a fresh object, set
`ref_count = 1` and the dealloc pointer, and copy `init` (or `""` when
`init` is NULL) into the string payload (the successful-malloc path). -/
def TroveString_create (s : TroveState) (init : Option String) :
    TroveState × Nat :=
  let a := s.nextAddr
  let content := match init with | some t => t | none => ""
  ({ s with
      heap := (a, { ref_count := 1, hasDealloc := true, str := content }) :: s.heap,
      nextAddr := a + 1 },
   a)

/-- Iterated `arc_retain`: n successive retain calls on the same pointer. -/
def arc_retain_iter (s : TroveState) (obj : Ptr) : Nat → TroveState
  | 0 => s
  | n + 1 => arc_retain_iter (arc_retain s obj) obj n

/-- Iterated `arc_release`: n successive release calls on the same pointer. -/
def arc_release_iter (s : TroveState) (obj : Ptr) : Nat → TroveState
  | 0 => s
  | n + 1 => arc_release_iter (arc_release s obj) obj n

/-- Observes the current pool's registered object list, when a pool is
active. -/
def poolObjects (s : TroveState) : Option (List Ptr) :=
  match s.current_autorelease_pool with
  | none => none
  | some pool => some pool.objects

/-- Observes the current pool's backing-array capacity, when a pool is
active. -/
def poolCapacity (s : TroveState) : Option Nat :=
  match s.current_autorelease_pool with
  | none => none
  | some pool => some pool.capacity

/-- An ARCObject with one owner, a set destructor, and empty payload. -/
def freshObject : ARCObject := { ref_count := 1, hasDealloc := true, str := "" }

/-- A concrete state: two live objects, both registered in the current
pool in address order. -/
def poolState : TroveState :=
  { heap := [(0, freshObject), (1, freshObject)]
    current_autorelease_pool := some { objects := [some 0, some 1], capacity := 16 }
    destroyLog := []
    diagnostics := []
    nextAddr := 2 }

/-- A concrete state: one live object with two owners, no pool. -/
def twoOwnerState : TroveState :=
  { heap := [(5, { ref_count := 2, hasDealloc := true, str := "x" })]
    current_autorelease_pool := none
    destroyLog := []
    diagnostics := []
    nextAddr := 6 }

/-- A concrete state: one live object, no pool. -/
def noPoolState : TroveState :=
  { heap := [(0, freshObject)]
    current_autorelease_pool := none
    destroyLog := []
    diagnostics := []
    nextAddr := 1 }

/-- A concrete state: one live object and an active empty pool. -/
def emptyPoolState : TroveState :=
  { heap := [(0, freshObject)]
    current_autorelease_pool := some { objects := [], capacity := 16 }
    destroyLog := []
    diagnostics := []
    nextAddr := 1 }

/-! ### Heap lemmas -/

theorem heapGet_heapSet_self (h : List (Nat × ARCObject)) (a : Nat)
    (o o' : ARCObject) (hg : heapGet h a = some o') :
    heapGet (heapSet h a o) a = some o := by
  induction h with
  | nil => simp [heapGet] at hg
  | cons hd t ih =>
    obtain ⟨b, p⟩ := hd
    by_cases hab : a = b
    · simp [heapGet, heapSet, hab]
    · simp [heapGet, heapSet, hab] at hg ⊢
      exact ih hg

theorem heapGet_heapSet_ne (h : List (Nat × ARCObject)) (a b : Nat)
    (o : ARCObject) (hab : a ≠ b) :
    heapGet (heapSet h b o) a = heapGet h a := by
  induction h with
  | nil => simp [heapSet]
  | cons hd t ih =>
    obtain ⟨c, p⟩ := hd
    by_cases hbc : b = c
    · subst hbc
      simp [heapGet, heapSet, hab]
    · by_cases hac : a = c <;> simp [heapGet, heapSet, hbc, hac, ih]

theorem heapGet_heapRemove_ne (h : List (Nat × ARCObject)) (a b : Nat)
    (hab : a ≠ b) :
    heapGet (heapRemove h b) a = heapGet h a := by
  induction h with
  | nil => simp [heapRemove]
  | cons hd t ih =>
    obtain ⟨c, p⟩ := hd
    by_cases hbc : b = c
    · subst hbc
      simp [heapGet, heapRemove, hab]
    · by_cases hac : a = c <;> simp [heapGet, heapRemove, hbc, hac, ih]

theorem heapGet_none_of_not_mem (h : List (Nat × ARCObject)) (a : Nat)
    (ha : a ∉ h.map Prod.fst) : heapGet h a = none := by
  induction h with
  | nil => simp [heapGet]
  | cons hd t ih =>
    obtain ⟨b, p⟩ := hd
    simp only [List.map_cons, List.mem_cons, not_or] at ha
    simp [heapGet, ha.1, ih ha.2]

theorem heapGet_heapRemove_self (h : List (Nat × ARCObject)) (a : Nat)
    (hk : (h.map Prod.fst).Nodup) :
    heapGet (heapRemove h a) a = none := by
  induction h with
  | nil => simp [heapRemove, heapGet]
  | cons hd t ih =>
    obtain ⟨b, p⟩ := hd
    simp only [List.map_cons, List.nodup_cons] at hk
    by_cases hab : a = b
    · subst hab
      simp [heapRemove, heapGet_none_of_not_mem t a hk.1]
    · simp [heapRemove, heapGet, hab, ih hk.2]

theorem heapGet_none_heapSet (h : List (Nat × ARCObject)) (a b : Nat)
    (o : ARCObject) (hg : heapGet h a = none) :
    heapGet (heapSet h b o) a = none := by
  induction h with
  | nil => simp [heapSet, heapGet]
  | cons hd t ih =>
    obtain ⟨c, p⟩ := hd
    by_cases hac : a = c
    · simp [heapGet, hac] at hg
    · simp only [heapGet, if_neg hac] at hg
      by_cases hbc : b = c <;> simp [heapSet, heapGet, hbc, hac, hg, ih hg]

theorem heapGet_none_heapRemove (h : List (Nat × ARCObject)) (a b : Nat)
    (hg : heapGet h a = none) :
    heapGet (heapRemove h b) a = none := by
  induction h with
  | nil => simp [heapRemove, heapGet]
  | cons hd t ih =>
    obtain ⟨c, p⟩ := hd
    by_cases hac : a = c
    · simp [heapGet, hac] at hg
    · simp only [heapGet, if_neg hac] at hg
      by_cases hbc : b = c
      · simpa [heapRemove, hbc] using hg
      · simp [heapRemove, heapGet, hbc, hac, ih hg]

theorem keys_heapSet (h : List (Nat × ARCObject)) (a : Nat) (o : ARCObject) :
    (heapSet h a o).map Prod.fst = h.map Prod.fst := by
  induction h with
  | nil => simp [heapSet]
  | cons hd t ih =>
    obtain ⟨b, p⟩ := hd
    by_cases hab : a = b <;> simp [heapSet, hab, ih]

theorem keys_heapRemove_sublist (h : List (Nat × ARCObject)) (a : Nat) :
    ((heapRemove h a).map Prod.fst).Sublist (h.map Prod.fst) := by
  induction h with
  | nil => simp [heapRemove]
  | cons hd t ih =>
    obtain ⟨b, p⟩ := hd
    by_cases hab : a = b
    · subst hab
      have hrm : heapRemove ((a, p) :: t) a = t := by simp [heapRemove]
      rw [hrm, List.map_cons]
      exact List.sublist_cons_self a (t.map Prod.fst)
    · simpa [heapRemove, hab] using List.Sublist.cons₂ b ih

/-! ### Characterizations of the ARC operations -/

theorem arc_release_null (s : TroveState) : arc_release s none = s := rfl

theorem arc_release_destroy (s : TroveState) (a : Nat) (o : ARCObject)
    (hg : heapGet s.heap a = some o) (h1 : o.ref_count ≤ 1)
    (hd : o.hasDealloc = true) :
    arc_release s (some a) =
      { s with heap := heapRemove s.heap a, destroyLog := s.destroyLog ++ [a] } := by
  simp only [arc_release, hg]
  simp [hd, show o.ref_count - 1 ≤ 0 by omega]

theorem arc_release_live (s : TroveState) (a : Nat) (o : ARCObject)
    (hg : heapGet s.heap a = some o) (h1 : 1 < o.ref_count) :
    arc_release s (some a) =
      { s with heap := heapSet s.heap a { o with ref_count := o.ref_count - 1 } } := by
  simp only [arc_release, hg]
  simp [show ¬o.ref_count - 1 ≤ 0 by omega]

theorem arc_retain_live (s : TroveState) (a : Nat) (o : ARCObject)
    (hg : heapGet s.heap a = some o) :
    arc_retain s (some a) =
      { s with heap := heapSet s.heap a { o with ref_count := o.ref_count + 1 } } := by
  simp only [arc_retain, hg]

theorem arc_release_frame (s : TroveState) (p : Ptr) :
    (arc_release s p).current_autorelease_pool = s.current_autorelease_pool ∧
    (arc_release s p).diagnostics = s.diagnostics ∧
    (arc_release s p).nextAddr = s.nextAddr := by
  cases p with
  | none => exact ⟨rfl, rfl, rfl⟩
  | some a =>
    cases hb : heapGet s.heap a with
    | none =>
      simp [arc_release, hb]
    | some o =>
      by_cases h1 : o.ref_count ≤ 1
      · cases hd : o.hasDealloc
        · simp only [arc_release, hb]
          simp [hd, show o.ref_count - 1 ≤ 0 by omega]
        · rw [arc_release_destroy s a o hb h1 hd]
          exact ⟨rfl, rfl, rfl⟩
      · rw [arc_release_live s a o hb (by omega)]
        exact ⟨rfl, rfl, rfl⟩

theorem arc_release_heapGet_none (s : TroveState) (p : Ptr) (a : Nat)
    (hg : heapGet s.heap a = none) :
    heapGet (arc_release s p).heap a = none := by
  cases p with
  | none => exact hg
  | some b =>
    cases hb : heapGet s.heap b with
    | none =>
      simp only [arc_release, hb]
      exact hg
    | some o =>
      by_cases h1 : o.ref_count ≤ 1
      · cases hd : o.hasDealloc
        · simp only [arc_release, hb]
          simp only [hd, show o.ref_count - 1 ≤ 0 by omega, if_true,
            Bool.false_eq_true, if_false]
          exact heapGet_none_heapSet s.heap a b _ hg
        · rw [arc_release_destroy s b o hb h1 hd]
          exact heapGet_none_heapRemove s.heap a b hg
      · rw [arc_release_live s b o hb (by omega)]
        exact heapGet_none_heapSet s.heap a b _ hg

theorem foldl_release_heapGet_none (l : List Ptr) : ∀ (s : TroveState) (a : Nat),
    heapGet s.heap a = none → heapGet (l.foldl arc_release s).heap a = none := by
  induction l with
  | nil => intro s a hg; exact hg
  | cons p t ih =>
    intro s a hg
    exact ih (arc_release s p) a (arc_release_heapGet_none s p a hg)

/-- Releasing a list of distinct live one-owner objects in order appends
exactly their addresses, in that order, to the destroy log, and frees
each of them. -/
theorem foldl_release_destroys (l : List Nat) : ∀ s : TroveState,
    (s.heap.map Prod.fst).Nodup →
    l.Nodup →
    (∀ a ∈ l, ∃ o, heapGet s.heap a = some o ∧ o.ref_count = 1 ∧
      o.hasDealloc = true) →
    ((l.map some).foldl arc_release s).destroyLog = s.destroyLog ++ l ∧
    (∀ a ∈ l, heapGet ((l.map some).foldl arc_release s).heap a = none) ∧
    ((l.map some).foldl arc_release s).current_autorelease_pool
      = s.current_autorelease_pool ∧
    ((l.map some).foldl arc_release s).diagnostics = s.diagnostics := by
  induction l with
  | nil =>
    intro s hk hn hobj
    simp
  | cons a t ih =>
    intro s hk hn hobj
    obtain ⟨o, hg, h1, hd⟩ := hobj a (List.mem_cons_self a t)
    have hrel : arc_release s (some a) =
        { s with heap := heapRemove s.heap a, destroyLog := s.destroyLog ++ [a] } :=
      arc_release_destroy s a o hg (by omega) hd
    have hna : a ∉ t := (List.nodup_cons.mp hn).1
    have hn1 : t.Nodup := (List.nodup_cons.mp hn).2
    have hk1 : ((arc_release s (some a)).heap.map Prod.fst).Nodup := by
      rw [hrel]
      exact List.Nodup.sublist (keys_heapRemove_sublist s.heap a) hk
    have hobj1 : ∀ b ∈ t, ∃ o', heapGet (arc_release s (some a)).heap b = some o' ∧
        o'.ref_count = 1 ∧ o'.hasDealloc = true := by
      intro b hb
      obtain ⟨o', hg', h1', hd'⟩ := hobj b (List.mem_cons_of_mem a hb)
      have hba : b ≠ a := fun he => hna (he ▸ hb)
      refine ⟨o', ?_, h1', hd'⟩
      rw [hrel]
      exact (heapGet_heapRemove_ne s.heap b a hba).trans hg'
    obtain ⟨hlog, hnone, hpool, hdiag⟩ := ih (arc_release s (some a)) hk1 hn1 hobj1
    rw [List.map_cons, List.foldl_cons]
    refine ⟨?_, ?_, ?_, ?_⟩
    · rw [hlog, hrel]
      simp
    · intro b hb
      rcases List.mem_cons.mp hb with he | hbt
      · subst he
        refine foldl_release_heapGet_none (t.map some) _ b ?_
        rw [hrel]
        exact heapGet_heapRemove_self s.heap b hk
      · exact hnone b hbt
    · rw [hpool, hrel]
    · rw [hdiag, hrel]

/-- Iterated retain on a live object adds n to its reference count and
changes nothing else observable. -/
theorem arc_retain_iter_spec (n : Nat) : ∀ (s : TroveState) (a : Nat)
    (o : ARCObject), heapGet s.heap a = some o →
    ∃ o', heapGet (arc_retain_iter s (some a) n).heap a = some o' ∧
      o'.ref_count = o.ref_count + n ∧
      o'.hasDealloc = o.hasDealloc ∧
      o'.str = o.str ∧
      (arc_retain_iter s (some a) n).destroyLog = s.destroyLog ∧
      (arc_retain_iter s (some a) n).current_autorelease_pool
        = s.current_autorelease_pool ∧
      (arc_retain_iter s (some a) n).diagnostics = s.diagnostics := by
  induction n with
  | zero =>
    intro s a o hg
    exact ⟨o, hg, by simp, rfl, rfl, rfl, rfl, rfl⟩
  | succ n ih =>
    intro s a o hg
    have hs1 : arc_retain s (some a) =
        { s with heap := heapSet s.heap a { o with ref_count := o.ref_count + 1 } } :=
      arc_retain_live s a o hg
    have hg1 : heapGet (arc_retain s (some a)).heap a
        = some { o with ref_count := o.ref_count + 1 } := by
      rw [hs1]
      exact heapGet_heapSet_self s.heap a _ o hg
    rw [show arc_retain_iter s (some a) (n + 1)
      = arc_retain_iter (arc_retain s (some a)) (some a) n from rfl]
    obtain ⟨o', ho1, ho2, ho3, ho4, hl, hp, hdg⟩ := ih (arc_retain s (some a)) a _ hg1
    have ho2' : o'.ref_count = o.ref_count + 1 + (n : Int) := ho2
    refine ⟨o', ho1, ?_, ho3, ho4, ?_, ?_, ?_⟩
    · push_cast
      omega
    · rw [hl, hs1]
    · rw [hp, hs1]
    · rw [hdg, hs1]

/-- While more than n owners remain, n iterated releases subtract n from
the reference count, never fire the destructor, and change nothing else
observable. -/
theorem arc_release_iter_live (n : Nat) : ∀ (s : TroveState) (a : Nat)
    (o : ARCObject), heapGet s.heap a = some o →
    (n : Int) < o.ref_count →
    ∃ o', heapGet (arc_release_iter s (some a) n).heap a = some o' ∧
      o'.ref_count = o.ref_count - n ∧
      o'.hasDealloc = o.hasDealloc ∧
      o'.str = o.str ∧
      (arc_release_iter s (some a) n).destroyLog = s.destroyLog ∧
      (arc_release_iter s (some a) n).current_autorelease_pool
        = s.current_autorelease_pool ∧
      (arc_release_iter s (some a) n).diagnostics = s.diagnostics := by
  induction n with
  | zero =>
    intro s a o hg hlt
    exact ⟨o, hg, by simp, rfl, rfl, rfl, rfl, rfl⟩
  | succ n ih =>
    intro s a o hg hlt
    have h1 : (1 : Int) < o.ref_count := by push_cast at hlt; omega
    have hs1 : arc_release s (some a) =
        { s with heap := heapSet s.heap a { o with ref_count := o.ref_count - 1 } } :=
      arc_release_live s a o hg h1
    have hg1 : heapGet (arc_release s (some a)).heap a
        = some { o with ref_count := o.ref_count - 1 } := by
      rw [hs1]
      exact heapGet_heapSet_self s.heap a _ o hg
    rw [show arc_release_iter s (some a) (n + 1)
      = arc_release_iter (arc_release s (some a)) (some a) n from rfl]
    have hlt1 : (n : Int) <
        ({ o with ref_count := o.ref_count - 1 } : ARCObject).ref_count := by
      show (n : Int) < o.ref_count - 1
      push_cast at hlt
      omega
    obtain ⟨o', ho1, ho2, ho3, ho4, hl, hp, hdg⟩ :=
      ih (arc_release s (some a)) a _ hg1 hlt1
    have ho2' : o'.ref_count = o.ref_count - 1 - (n : Int) := ho2
    refine ⟨o', ho1, ?_, ho3, ho4, ?_, ?_, ?_⟩
    · push_cast
      omega
    · rw [hl, hs1]
    · rw [hp, hs1]
    · rw [hdg, hs1]

/-- The last of n+1 iterated releases can be split off. -/
theorem arc_release_iter_succ (s : TroveState) (p : Ptr) (n : Nat) :
    arc_release_iter s p (n + 1) = arc_release (arc_release_iter s p n) p := by
  induction n generalizing s with
  | zero => rfl
  | succ n ih =>
    rw [show arc_release_iter s p (n + 1 + 1)
      = arc_release_iter (arc_release s p) p (n + 1) from rfl, ih]
    rfl

/-- Registering one more object appends it to the current pool's list. -/
theorem autorelease_add_poolObjects (s : TroveState) (p : Ptr) (obs : List Ptr)
    (h : poolObjects s = some obs) :
    poolObjects (autorelease_add s p) = some (obs ++ [p]) := by
  cases hc : s.current_autorelease_pool with
  | none => simp [poolObjects, hc] at h
  | some pool =>
    have hobs : pool.objects = obs := by simpa [poolObjects, hc] using h
    subst hobs
    simp only [autorelease_add, hc]
    by_cases hfull : pool.objects.length ≥ pool.capacity <;>
      simp [poolObjects, hfull]

/-- Folding registrations over a list appends it to the pool's list. -/
theorem foldl_autorelease_add_poolObjects (ps : List Ptr) :
    ∀ (s : TroveState) (obs : List Ptr), poolObjects s = some obs →
    poolObjects (ps.foldl autorelease_add s) = some (obs ++ ps) := by
  induction ps with
  | nil =>
    intro s obs h
    simpa using h
  | cons p t ih =>
    intro s obs h
    rw [List.foldl_cons]
    have h2 := ih (autorelease_add s p) (obs ++ [p])
      (autorelease_add_poolObjects s p obs h)
    rw [h2]
    simp

/-! ### Claims -/

/-- C1: For a pool whose registered objects are o1..ok in registration
order (distinct live objects, each with one outstanding owner and a set
destructor), `autorelease_pool_pop` releases each exactly once, in
exactly that order — the destructor log grows by exactly the registered
addresses in registration order and every registered object is freed —
and leaves the current-pool slot in the NoPool state. -/
theorem pop_releases_in_registration_order (s : TroveState) (l : List Nat)
    (cap : Nat)
    (hpool : s.current_autorelease_pool
      = some { objects := l.map some, capacity := cap })
    (hkeys : (s.heap.map Prod.fst).Nodup)
    (hdistinct : l.Nodup)
    (hlive : ∀ a ∈ l, ∃ o, heapGet s.heap a = some o ∧ o.ref_count = 1 ∧
      o.hasDealloc = true) :
    (autorelease_pool_pop s).destroyLog = s.destroyLog ++ l ∧
    (autorelease_pool_pop s).current_autorelease_pool = none ∧
    ∀ a ∈ l, heapGet (autorelease_pool_pop s).heap a = none := by
  obtain ⟨hlog, hnone, hp2, hdg⟩ := foldl_release_destroys l s hkeys hdistinct hlive
  simp only [autorelease_pool_pop, hpool]
  exact ⟨hlog, trivial, hnone⟩

/-- Witness for C1: popping a concrete pool holding addresses 0 then 1
destroys 0 then 1 and clears the pool slot. -/
theorem pop_releases_in_registration_order_witness :
    (autorelease_pool_pop poolState).destroyLog = poolState.destroyLog ++ [0, 1] ∧
    (autorelease_pool_pop poolState).current_autorelease_pool = none := by
  have h := pop_releases_in_registration_order poolState [0, 1] 16 rfl
    (by decide) (by decide)
    (by
      intro a ha
      rcases List.mem_cons.mp ha with he | ha2
      · subst he
        exact ⟨freshObject, rfl, rfl, rfl⟩
      · rcases List.mem_cons.mp ha2 with he | h3
        · subst he
          exact ⟨freshObject, rfl, rfl, rfl⟩
        · cases h3)
  exact ⟨h.1, h.2.1⟩

/-- C2: After push, register into the outer pool, push again, then pop
once, the current-pool slot is NoPool rather than the outer pool; a
second pop is a no-op, and the object registered in the outer pool is
never released by any pop: push keeps no link to the previous pool. -/
theorem push_push_pop_loses_outer_pool (s : TroveState) (a : Nat) :
    (autorelease_pool_pop (autorelease_pool_push
        (autorelease_add (autorelease_pool_push s) (some a)))).current_autorelease_pool
      = none ∧
    autorelease_pool_pop (autorelease_pool_pop (autorelease_pool_push
        (autorelease_add (autorelease_pool_push s) (some a))))
      = autorelease_pool_pop (autorelease_pool_push
        (autorelease_add (autorelease_pool_push s) (some a))) ∧
    (autorelease_pool_pop (autorelease_pool_push
        (autorelease_add (autorelease_pool_push s) (some a)))).heap = s.heap ∧
    (autorelease_pool_pop (autorelease_pool_push
        (autorelease_add (autorelease_pool_push s) (some a)))).destroyLog
      = s.destroyLog := by
  refine ⟨?_, ?_, ?_, ?_⟩ <;>
    simp [autorelease_pool_push, autorelease_add, autorelease_pool_pop]

/-- C3: For a live object with refCount 1, n retains followed by n
releases restore the object exactly (refCount 1 again) and the
destructor never fires at any point in the sequence: the destroy log is
unchanged after every prefix of the retain phase and after every prefix
of the release phase. -/
theorem retain_release_balanced (s : TroveState) (a : Nat) (o : ARCObject)
    (n : Nat) (hg : heapGet s.heap a = some o) (h1 : o.ref_count = 1) :
    heapGet (arc_release_iter (arc_retain_iter s (some a) n) (some a) n).heap a
      = some o ∧
    (∀ k, k ≤ n → (arc_retain_iter s (some a) k).destroyLog = s.destroyLog) ∧
    (∀ k, k ≤ n →
      (arc_release_iter (arc_retain_iter s (some a) n) (some a) k).destroyLog
        = s.destroyLog) := by
  obtain ⟨o1, hretg, hret2, hret3, hret4, hretl, _, _⟩ :=
    arc_retain_iter_spec n s a o hg
  refine ⟨?_, ?_, ?_⟩
  · have hlt : (n : Int) < o1.ref_count := by
      rw [hret2, h1]
      omega
    obtain ⟨o2, hg2, h2rc, h2d, h2s, _, _, _⟩ :=
      arc_release_iter_live n (arc_retain_iter s (some a) n) a o1 hretg hlt
    have ho2 : o2 = o := by
      ext
      · rw [h2rc, hret2]
        ring
      · rw [h2d, hret3]
      · rw [h2s, hret4]
    rw [hg2, ho2]
  · intro k hk
    obtain ⟨_, _, _, _, _, hl, _, _⟩ := arc_retain_iter_spec k s a o hg
    exact hl
  · intro k hk
    have hltk : (k : Int) < o1.ref_count := by
      rw [hret2, h1]
      omega
    obtain ⟨_, _, _, _, _, hl, _, _⟩ :=
      arc_release_iter_live k (arc_retain_iter s (some a) n) a o1 hretg hltk
    rw [hl, hretl]

/-- Witness for C3 at n = 3 on a concrete fresh object. -/
theorem retain_release_balanced_witness :
    heapGet (arc_release_iter (arc_retain_iter noPoolState (some 0) 3)
      (some 0) 3).heap 0 = some freshObject :=
  (retain_release_balanced noPoolState 0 freshObject 3 rfl rfl).1

/-- C4: For a live object with refCount r ≥ 1, a set destructor and no
intervening retains or autoreleases, r iterated releases fire the
destructor exactly once — on the r-th release and not before: the
destroy log is unchanged after any k < r releases and grows by exactly
this object's address after the r-th. -/
theorem release_refcount_times_fires_dealloc_once (s : TroveState) (a : Nat)
    (o : ARCObject) (r : Nat) (hg : heapGet s.heap a = some o)
    (hrc : o.ref_count = (r : Int)) (hr : 1 ≤ r) (hd : o.hasDealloc = true) :
    (∀ k, k < r → (arc_release_iter s (some a) k).destroyLog = s.destroyLog) ∧
    (arc_release_iter s (some a) r).destroyLog = s.destroyLog ++ [a] := by
  constructor
  · intro k hk
    have hltk : (k : Int) < o.ref_count := by
      rw [hrc]
      omega
    obtain ⟨_, _, _, _, _, hl, _, _⟩ := arc_release_iter_live k s a o hg hltk
    exact hl
  · obtain ⟨m, rfl⟩ : ∃ m, r = m + 1 := ⟨r - 1, by omega⟩
    have hltm : (m : Int) < o.ref_count := by
      rw [hrc]
      omega
    obtain ⟨o', ho1, ho2, ho3, _, hl, _, _⟩ := arc_release_iter_live m s a o hg hltm
    rw [arc_release_iter_succ]
    have ho2' : o'.ref_count ≤ 1 := by
      rw [ho2, hrc]
      omega
    have hd' : o'.hasDealloc = true := by
      rw [ho3]
      exact hd
    rw [arc_release_destroy _ a o' ho1 ho2' hd']
    simp [hl]

/-- Witness for C4 at r = 2 on a concrete two-owner object. -/
theorem release_refcount_times_fires_dealloc_once_witness :
    (arc_release_iter twoOwnerState (some 5) 2).destroyLog
      = twoOwnerState.destroyLog ++ [5] :=
  (release_refcount_times_fires_dealloc_once twoOwnerState 5
    { ref_count := 2, hasDealloc := true, str := "x" } 2 rfl (by decide)
    (by decide) rfl).2

/-- C5: For every input, the object TroveString_create returns has its
embedded header initialized with refCount 1 and its destructor set
immediately upon return (its payload is the given text, or empty for
NULL input). -/
theorem create_initializes_header (s : TroveState) (init : Option String) :
    heapGet (TroveString_create s init).1.heap (TroveString_create s init).2
      = some { ref_count := 1, hasDealloc := true,
               str := (match init with | some t => t | none => "") } := by
  simp [TroveString_create, heapGet]

/-- C6: With no active pool, registration does not crash: it emits the
diagnostic, registers the object nowhere, and leaves the current-pool
state, the heap (so every refCount) and the destroy log unchanged. -/
theorem autorelease_without_pool_is_skipped (s : TroveState) (p : Ptr)
    (h : s.current_autorelease_pool = none) :
    autorelease_add s p
      = { s with diagnostics := s.diagnostics ++ ["No autorelease pool in place!"] } ∧
    (arc_autorelease s p).2 = p ∧
    (arc_autorelease s p).1.heap = s.heap ∧
    (arc_autorelease s p).1.current_autorelease_pool = none ∧
    (arc_autorelease s p).1.destroyLog = s.destroyLog := by
  have h1 : autorelease_add s p
      = { s with diagnostics := s.diagnostics ++ ["No autorelease pool in place!"] } := by
    simp only [autorelease_add, h]
  refine ⟨h1, rfl, ?_, ?_, ?_⟩ <;> simp [arc_autorelease, h1, h]

/-- Witness for C6 on a concrete pool-less state. -/
theorem autorelease_without_pool_is_skipped_witness :
    autorelease_add noPoolState (some 0)
      = { noPoolState with diagnostics := ["No autorelease pool in place!"] } ∧
    (arc_autorelease noPoolState (some 0)).2 = some 0 := by
  have h := autorelease_without_pool_is_skipped noPoolState (some 0) rfl
  exact ⟨h.1, h.2.1⟩

/-- C7: arc_autorelease returns the identical pointer and does not touch
the heap (so no object's refCount or destructor field), the destroy log,
the diagnostics, or the allocator; with an active pool its only state
change is appending the pointer to the current pool's object list
(doubling the backing capacity when the list is full). -/
theorem autorelease_returns_object_and_only_appends (s : TroveState) (p : Ptr)
    (pool : AutoreleasePool)
    (h : s.current_autorelease_pool = some pool) :
    (arc_autorelease s p).2 = p ∧
    (arc_autorelease s p).1.heap = s.heap ∧
    (arc_autorelease s p).1.destroyLog = s.destroyLog ∧
    (arc_autorelease s p).1.diagnostics = s.diagnostics ∧
    (arc_autorelease s p).1.nextAddr = s.nextAddr ∧
    poolObjects (arc_autorelease s p).1 = some (pool.objects ++ [p]) ∧
    poolCapacity (arc_autorelease s p).1
      = some (if pool.objects.length ≥ pool.capacity
              then pool.capacity * 2 else pool.capacity) := by
  have hobs : poolObjects s = some pool.objects := by simp [poolObjects, h]
  refine ⟨rfl, ?_, ?_, ?_, ?_,
    autorelease_add_poolObjects s p pool.objects hobs, ?_⟩
  · simp only [arc_autorelease, autorelease_add, h]
  · simp only [arc_autorelease, autorelease_add, h]
  · simp only [arc_autorelease, autorelease_add, h]
  · simp only [arc_autorelease, autorelease_add, h]
  · simp only [arc_autorelease, autorelease_add, h, poolCapacity]
    by_cases hfull : pool.objects.length ≥ pool.capacity <;> simp [hfull]

/-- Witness for C7 on a concrete empty active pool. -/
theorem autorelease_returns_object_and_only_appends_witness :
    (arc_autorelease emptyPoolState (some 0)).2 = some 0 ∧
    (arc_autorelease emptyPoolState (some 0)).1.heap = emptyPoolState.heap ∧
    poolObjects (arc_autorelease emptyPoolState (some 0)).1 = some [some 0] := by
  have h := autorelease_returns_object_and_only_appends emptyPoolState (some 0)
    { objects := [], capacity := 16 } rfl
  exact ⟨h.1, h.2.1, h.2.2.2.2.2.1⟩

/-- C8: Starting from a freshly pushed pool (initial capacity 16), any
sequence of k registrations — including k beyond the initial capacity,
where the backing array doubles — leaves the pool's object list holding
exactly the k registered pointers in registration order: nothing lost,
corrupted, or duplicated by growth. -/
theorem pool_growth_preserves_registrations (s : TroveState) (ps : List Ptr) :
    poolObjects (ps.foldl autorelease_add (autorelease_pool_push s)) = some ps := by
  have h0 : poolObjects (autorelease_pool_push s) = some [] := rfl
  simpa using foldl_autorelease_add_poolObjects ps (autorelease_pool_push s) [] h0

/-- C9: TroveString_create with NULL input succeeds and yields an object
whose text content is the empty string, with refCount 1 and the
destructor set. -/
theorem create_null_yields_empty_string (s : TroveState) :
    heapGet (TroveString_create s none).1.heap (TroveString_create s none).2
      = some { ref_count := 1, hasDealloc := true, str := "" } := by
  simp [TroveString_create, heapGet]

/-- C10: With an active pool, autoreleasing NULL registers NULL in the
pool and returns NULL, and the subsequent pop applies arc_release to the
NULL entry as a no-op: no destructor fires, nothing faults, and the
final state is the original one with the pool slot cleared. -/
theorem null_object_through_pool_is_safe (s : TroveState) :
    (arc_autorelease (autorelease_pool_push s) none).2 = none ∧
    poolObjects (arc_autorelease (autorelease_pool_push s) none).1 = some [none] ∧
    autorelease_pool_pop (arc_autorelease (autorelease_pool_push s) none).1
      = { s with current_autorelease_pool := none } := by
  refine ⟨rfl, ?_, ?_⟩ <;>
    simp [arc_autorelease, autorelease_add, autorelease_pool_push,
      autorelease_pool_pop, poolObjects, arc_release]

end Trove
